import Mathlib

/-!
Verification of the Black-Scholes option pricing core of
`streamlit_app.py` (class `BlackScholes.calculate_prices`, and the grid
functions `plot_heatmap` / `plot_price_diff_colormap`).

The numeric code is modelled over the real numbers: `scipy.stats.norm.pdf`
and `scipy.stats.norm.cdf` are modelled as the standard normal density and
its cumulative integral, `numpy.log / sqrt / exp` as `Real.log / Real.sqrt /
Real.exp`.  The matrix-producing part of the two plotting functions is
modelled as the list of rows the source loops write; figure rendering is
outside the computational core.
-/

open MeasureTheory

/-- Standard normal probability density, the model of `scipy.stats.norm.pdf`. -/
noncomputable def normPdf (x : ℝ) : ℝ :=
  Real.exp (-(x ^ 2) / 2) / Real.sqrt (2 * Real.pi)

/-- Standard normal cumulative distribution function, the model of
`scipy.stats.norm.cdf`. -/
noncomputable def normCdf (x : ℝ) : ℝ :=
  ∫ t in Set.Iic x, normPdf t

/-! ## The pricing model (`class BlackScholes`, `streamlit_app.py` lines 56-85) -/

/-- The five constructor fields of `class BlackScholes` (`__init__`, lines 57-62). -/
structure BlackScholes where
  time_to_maturity : ℝ
  strike : ℝ
  current_price : ℝ
  volatility : ℝ
  interest_rate : ℝ

/-- The six derived attributes that `calculate_prices` stores on the object
(lines 77-83). -/
structure PricingResult where
  call_price : ℝ
  put_price : ℝ
  call_delta : ℝ
  put_delta : ℝ
  call_gamma : ℝ
  put_gamma : ℝ

/-- `BlackScholes.calculate_prices` (lines 64-85), translated line by line;
the mutable attribute writes become the fields of the returned record. -/
noncomputable def BlackScholes.calculate_prices (m : BlackScholes) : PricingResult :=
  let time_to_maturity := m.time_to_maturity
  let strike := m.strike
  let current_price := m.current_price
  let volatility := m.volatility
  let interest_rate := m.interest_rate
  let d1 := (Real.log (current_price / strike) +
      (interest_rate + 0.5 * volatility ^ 2) * time_to_maturity) /
      (volatility * Real.sqrt time_to_maturity)
  let d2 := d1 - volatility * Real.sqrt time_to_maturity
  let call_price := current_price * normCdf d1 -
      strike * Real.exp (-(interest_rate * time_to_maturity)) * normCdf d2
  let put_price := strike * Real.exp (-(interest_rate * time_to_maturity)) * normCdf (-d2) -
      current_price * normCdf (-d1)
  let call_gamma := normPdf d1 / (strike * volatility * Real.sqrt time_to_maturity)
  { call_price := call_price
    put_price := put_price
    call_delta := normCdf d1
    put_delta := 1 - normCdf d1
    call_gamma := call_gamma
    put_gamma := call_gamma }

/-- The quantity `d1` of line 71, as a function of the model parameters. -/
noncomputable def BlackScholes.d1 (m : BlackScholes) : ℝ :=
  (Real.log (m.current_price / m.strike) +
    (m.interest_rate + 0.5 * m.volatility ^ 2) * m.time_to_maturity) /
    (m.volatility * Real.sqrt m.time_to_maturity)

/-- The quantity `d2` of line 72. -/
noncomputable def BlackScholes.d2 (m : BlackScholes) : ℝ :=
  m.d1 - m.volatility * Real.sqrt m.time_to_maturity

/-! ## The grid functions (lines 88-110 and 113-136)

Both functions build a `len(vol_range) x len(spot_range)` matrix of option
prices and then render it with seaborn; only the matrix construction is
modelled.  The per-cell computation shared by both loop nests
(lines 93-101 and 118-126): build a fresh `BlackScholes` that copies
`time_to_maturity` and `interest_rate` from `bs_model`, overrides
`current_price` and `volatility` with the grid coordinates and uses the
given strike, then select the call or the put price. -/

/-- One cell of either grid (lines 93-101 / 118-126). -/
noncomputable def cell_price (bs_model : BlackScholes) (strike spot vol : ℝ)
    (option_type : String) : ℝ :=
  let bs_temp : BlackScholes :=
    { time_to_maturity := bs_model.time_to_maturity
      strike := strike
      current_price := spot
      volatility := vol
      interest_rate := bs_model.interest_rate }
  let result := bs_temp.calculate_prices
  if option_type = "call" then result.call_price else result.put_price

/-- The matrix built by `plot_heatmap` (lines 88-102): row `i` ranges over
`vol_range`, column `j` over `spot_range`, and the supplied `strike`
argument is used for every cell. -/
noncomputable def plot_heatmap (bs_model : BlackScholes) (spot_range vol_range : List ℝ)
    (strike : ℝ) (option_type : String) : List (List ℝ) :=
  vol_range.map fun vol =>
    spot_range.map fun spot => cell_price bs_model strike spot vol option_type

/-- Row `i` of the `plot_price_diff_colormap` matrix: the inner
`for j, spot in enumerate(spot_range)` loop of lines 117-127.  Each cell
subtracts `purchase_price_range[i]`; the lookup happens inside the inner
loop, so an out-of-range row index `i` raises `IndexError` (modelled as
`none`) as soon as the inner loop runs at least once, and is never
reached when `spot_range` is empty. -/
noncomputable def diff_row (bs_model : BlackScholes) (purchase_price_range : List ℝ)
    (option_type : String) (vol : ℝ) (i : ℕ) : List ℝ → Option (List ℝ)
  | [] => some []
  | spot :: rest =>
    match purchase_price_range.get? i,
        diff_row bs_model purchase_price_range option_type vol i rest with
    | some p, some tail =>
        some ((cell_price bs_model bs_model.strike spot vol option_type - p) :: tail)
    | _, _ => none

/-- The outer `for i, vol in enumerate(vol_range)` loop of
`plot_price_diff_colormap` (lines 116-127), starting at row index `i`. -/
noncomputable def diff_rows (bs_model : BlackScholes)
    (spot_range purchase_price_range : List ℝ) (option_type : String) :
    List ℝ → ℕ → Option (List (List ℝ))
  | [], _ => some []
  | vol :: vols, i =>
    match diff_row bs_model purchase_price_range option_type vol i spot_range,
        diff_rows bs_model spot_range purchase_price_range option_type vols (i + 1) with
    | some row, some rest => some (row :: rest)
    | _, _ => none

/-- The matrix built by `plot_price_diff_colormap` (lines 113-127): like
`plot_heatmap` but with the strike taken from `bs_model.strike` (line 120,
no strike argument exists) and `purchase_price_range[i]` subtracted from
every cell of row `i` (line 127).  An uncaught `IndexError` aborts the
whole computation, so the result is an `Option`: `none` models the
exception escaping before any matrix is returned. -/
noncomputable def plot_price_diff_colormap (bs_model : BlackScholes)
    (spot_range vol_range purchase_price_range : List ℝ) (option_type : String) :
    Option (List (List ℝ)) :=
  diff_rows bs_model spot_range purchase_price_range option_type vol_range 0

/-! ## Properties of the normal density and CDF -/

lemma sqrt_two_pi_pos : 0 < Real.sqrt (2 * Real.pi) :=
  Real.sqrt_pos.2 (by positivity)

lemma normPdf_pos (x : ℝ) : 0 < normPdf x :=
  div_pos (Real.exp_pos _) sqrt_two_pi_pos

lemma normPdf_nonneg (x : ℝ) : 0 ≤ normPdf x := (normPdf_pos x).le

lemma normPdf_neg (x : ℝ) : normPdf (-x) = normPdf x := by
  simp [normPdf]

lemma normPdf_eq (x : ℝ) : normPdf x = Real.exp (-(2⁻¹) * x ^ 2) / Real.sqrt (2 * Real.pi) := by
  rw [normPdf]
  ring_nf

lemma continuous_normPdf : Continuous normPdf := by
  unfold normPdf
  fun_prop

lemma integrable_normPdf : Integrable normPdf := by
  have h : Integrable (fun x : ℝ => Real.exp (-(2⁻¹ : ℝ) * x ^ 2)) :=
    integrable_exp_neg_mul_sq (by norm_num)
  have h2 := h.div_const (Real.sqrt (2 * Real.pi))
  refine h2.congr (Filter.Eventually.of_forall fun x => ?_)
  rw [normPdf_eq]

lemma integral_normPdf : ∫ x, normPdf x = 1 := by
  have h : ∫ x : ℝ, Real.exp (-(2⁻¹ : ℝ) * x ^ 2) = Real.sqrt (Real.pi / 2⁻¹) :=
    integral_gaussian (2⁻¹ : ℝ)
  have hπ : Real.pi / (2⁻¹ : ℝ) = 2 * Real.pi := by ring
  calc ∫ x, normPdf x
      = ∫ x : ℝ, Real.exp (-(2⁻¹ : ℝ) * x ^ 2) / Real.sqrt (2 * Real.pi) := by
        refine integral_congr_ae (Filter.Eventually.of_forall fun x => ?_)
        rw [normPdf_eq]
    _ = (∫ x : ℝ, Real.exp (-(2⁻¹ : ℝ) * x ^ 2)) / Real.sqrt (2 * Real.pi) := by
        rw [integral_div]
    _ = 1 := by
        rw [h, hπ]
        exact div_self sqrt_two_pi_pos.ne'

/-- Symmetry of the standard normal CDF: `Φ x + Φ (−x) = 1`. -/
lemma normCdf_add_neg (x : ℝ) : normCdf x + normCdf (-x) = 1 := by
  have hrefl : normCdf (-x) = ∫ t in Set.Ioi x, normPdf t := by
    have h1 : (∫ t in Set.Iic (-x), normPdf (-t)) = ∫ t in Set.Ioi (- -x), normPdf t :=
      integral_comp_neg_Iic (-x) normPdf
    have h2 : (∫ t in Set.Iic (-x), normPdf (-t)) = ∫ t in Set.Iic (-x), normPdf t :=
      setIntegral_congr_fun measurableSet_Iic fun t _ => normPdf_neg t
    rw [normCdf, ← h2, h1, neg_neg]
  rw [normCdf, hrefl, ← integral_normPdf]
  exact intervalIntegral.integral_Iic_add_Ioi integrable_normPdf.integrableOn
    integrable_normPdf.integrableOn

lemma normCdf_zero : normCdf 0 = 1 / 2 := by
  have h := normCdf_add_neg 0
  rw [neg_zero] at h
  linarith

lemma normCdf_nonneg (x : ℝ) : 0 ≤ normCdf x :=
  setIntegral_nonneg measurableSet_Iic fun t _ => normPdf_nonneg t

lemma normCdf_le_one (x : ℝ) : normCdf x ≤ 1 := by
  have h := normCdf_add_neg x
  have h2 := normCdf_nonneg (-x)
  linarith

lemma normCdf_mono : Monotone normCdf := by
  intro a b hab
  exact setIntegral_mono_set integrable_normPdf.integrableOn
    (Filter.Eventually.of_forall fun t => normPdf_nonneg t)
    (HasSubset.Subset.eventuallyLE (Set.Iic_subset_Iic.2 hab))

/-- Fundamental theorem of calculus for `normCdf`: its derivative at `x` is
`normPdf x`. -/
lemma hasDerivAt_normCdf (x : ℝ) : HasDerivAt normCdf (normPdf x) x := by
  have hrepr : ∀ u : ℝ, normCdf u = normCdf 0 + ∫ t in (0 : ℝ)..u, normPdf t := by
    intro u
    have h := intervalIntegral.integral_Iic_sub_Iic
      (integrable_normPdf.integrableOn (s := Set.Iic (0 : ℝ)))
      (integrable_normPdf.integrableOn (s := Set.Iic u))
    rw [normCdf, normCdf, ← h]
    ring
  have hderiv : HasDerivAt (fun u => ∫ t in (0 : ℝ)..u, normPdf t) (normPdf x) x :=
    intervalIntegral.integral_hasDerivAt_right
      integrable_normPdf.intervalIntegrable
      (continuous_normPdf.aestronglyMeasurable.stronglyMeasurableAtFilter)
      continuous_normPdf.continuousAt
  have h2 : HasDerivAt (fun u => normCdf 0 + ∫ t in (0 : ℝ)..u, normPdf t) (normPdf x) x :=
    hderiv.const_add (normCdf 0)
  exact h2.congr_deriv rfl |>.congr_of_eventuallyEq
    (Filter.Eventually.of_forall fun u => (hrepr u))

lemma calculate_prices_call_price (m : BlackScholes) :
    m.calculate_prices.call_price =
      m.current_price * normCdf m.d1 -
        m.strike * Real.exp (-(m.interest_rate * m.time_to_maturity)) * normCdf m.d2 := rfl

lemma calculate_prices_put_price (m : BlackScholes) :
    m.calculate_prices.put_price =
      m.strike * Real.exp (-(m.interest_rate * m.time_to_maturity)) * normCdf (-m.d2) -
        m.current_price * normCdf (-m.d1) := rfl

lemma calculate_prices_call_delta (m : BlackScholes) :
    m.calculate_prices.call_delta = normCdf m.d1 := rfl

lemma calculate_prices_put_delta (m : BlackScholes) :
    m.calculate_prices.put_delta = 1 - normCdf m.d1 := rfl

lemma calculate_prices_call_gamma (m : BlackScholes) :
    m.calculate_prices.call_gamma =
      normPdf m.d1 / (m.strike * m.volatility * Real.sqrt m.time_to_maturity) := rfl

lemma calculate_prices_put_gamma (m : BlackScholes) :
    m.calculate_prices.put_gamma = m.calculate_prices.call_gamma := rfl

/-! ## Helper lemmas about the grid loops -/

lemma put_call_parity (m : BlackScholes) :
    m.calculate_prices.call_price - m.calculate_prices.put_price =
      m.current_price - m.strike * Real.exp (-(m.interest_rate * m.time_to_maturity)) := by
  rw [calculate_prices_call_price, calculate_prices_put_price]
  have h1 := normCdf_add_neg m.d1
  have h2 := normCdf_add_neg m.d2
  linear_combination m.current_price * h1 -
    m.strike * Real.exp (-(m.interest_rate * m.time_to_maturity)) * h2

lemma cell_price_eq (bs_model : BlackScholes) (strike spot vol : ℝ) (option_type : String) :
    cell_price bs_model strike spot vol option_type =
      if option_type = "call"
      then (BlackScholes.calculate_prices
        { time_to_maturity := bs_model.time_to_maturity
          strike := strike
          current_price := spot
          volatility := vol
          interest_rate := bs_model.interest_rate }).call_price
      else (BlackScholes.calculate_prices
        { time_to_maturity := bs_model.time_to_maturity
          strike := strike
          current_price := spot
          volatility := vol
          interest_rate := bs_model.interest_rate }).put_price := rfl

lemma plot_heatmap_cell (bs_model : BlackScholes) (spot_range vol_range : List ℝ)
    (strike : ℝ) (option_type : String) (i j : ℕ)
    (hi : i < vol_range.length) (hj : j < spot_range.length) :
    (plot_heatmap bs_model spot_range vol_range strike option_type)[i]?.bind
        (fun row => row[j]?) =
      some (cell_price bs_model strike (spot_range.getD j 0) (vol_range.getD i 0)
        option_type) := by
  unfold plot_heatmap
  rw [List.getElem?_map, List.getElem?_eq_getElem hi]
  simp [List.getElem?_map, List.getElem?_eq_getElem hj, List.getElem?_eq_getElem hi,
    List.getD_eq_getElem spot_range 0 hj, List.getD_eq_getElem vol_range 0 hi]

lemma plot_heatmap_cell_getD (bs_model : BlackScholes) (spot_range vol_range : List ℝ)
    (strike : ℝ) (option_type : String) (i j : ℕ)
    (hi : i < vol_range.length) (hj : j < spot_range.length) :
    (((plot_heatmap bs_model spot_range vol_range strike option_type).getD i []).getD j 0) =
      cell_price bs_model strike (spot_range.getD j 0) (vol_range.getD i 0) option_type := by
  unfold plot_heatmap
  rw [List.getD_eq_getElem _ [] (by simpa using hi), List.getElem_map,
    List.getD_eq_getElem _ 0 (by simpa using hj), List.getElem_map,
    List.getD_eq_getElem spot_range 0 hj, List.getD_eq_getElem vol_range 0 hi]

lemma diff_row_eq_of_some {purchase_price_range : List ℝ} {i : ℕ} {p : ℝ}
    (hp : purchase_price_range[i]? = some p) (bs_model : BlackScholes)
    (option_type : String) (vol : ℝ) (spot_range : List ℝ) :
    diff_row bs_model purchase_price_range option_type vol i spot_range =
      some (spot_range.map fun spot =>
        cell_price bs_model bs_model.strike spot vol option_type - p) := by
  induction spot_range with
  | nil => rfl
  | cons spot rest ih =>
    rw [diff_row, List.get?_eq_getElem?, hp, ih]
    rfl

lemma diff_row_eq_none {purchase_price_range : List ℝ} {i : ℕ}
    (hp : purchase_price_range[i]? = none) (bs_model : BlackScholes)
    (option_type : String) (vol : ℝ) {spot_range : List ℝ} (hsr : spot_range ≠ []) :
    diff_row bs_model purchase_price_range option_type vol i spot_range = none := by
  cases spot_range with
  | nil => exact absurd rfl hsr
  | cons spot rest =>
    rw [diff_row, List.get?_eq_getElem?, hp]

lemma diff_rows_eq_some (bs_model : BlackScholes) (spot_range purchase_price_range : List ℝ)
    (option_type : String) :
    ∀ (vols : List ℝ) (i : ℕ), i + vols.length ≤ purchase_price_range.length →
      ∃ M, diff_rows bs_model spot_range purchase_price_range option_type vols i = some M ∧
        M.length = vols.length ∧
        (∀ row ∈ M, row.length = spot_range.length) ∧
        ∀ k, k < vols.length →
          M[k]? = some (spot_range.map fun spot =>
            cell_price bs_model bs_model.strike spot (vols.getD k 0) option_type -
              purchase_price_range.getD (i + k) 0)
  | [], i, _ => ⟨[], rfl, rfl, by simp, by simp⟩
  | vol :: vs, i, h => by
    have hi : i < purchase_price_range.length := by
      simp only [List.length_cons] at h
      omega
    have hp : purchase_price_range[i]? = some (purchase_price_range.getD i 0) := by
      rw [List.getElem?_eq_getElem hi, List.getD_eq_getElem purchase_price_range 0 hi]
    obtain ⟨M, hM, hMl, hMr, hMg⟩ :=
      diff_rows_eq_some bs_model spot_range purchase_price_range option_type vs (i + 1)
        (by simp only [List.length_cons] at h; omega)
    refine ⟨(spot_range.map fun spot =>
        cell_price bs_model bs_model.strike spot vol option_type -
          purchase_price_range.getD i 0) :: M, ?_, by simp [hMl], ?_, ?_⟩
    · rw [diff_rows,
        diff_row_eq_of_some hp bs_model option_type vol spot_range, hM]
    · intro row hrow
      rcases List.mem_cons.1 hrow with h1 | h2
      · rw [h1, List.length_map]
      · exact hMr row h2
    · intro k hk
      cases k with
      | zero => simp
      | succ k' =>
        have hk' : k' < vs.length := by simpa using hk
        have := hMg k' hk'
        have harith : i + 1 + k' = i + (k' + 1) := by omega
        rw [harith] at this
        simpa using this

lemma diff_rows_eq_none (bs_model : BlackScholes) (spot_range purchase_price_range : List ℝ)
    (option_type : String) (hsr : spot_range ≠ []) :
    ∀ (vols : List ℝ) (i : ℕ), i ≤ purchase_price_range.length →
      purchase_price_range.length < i + vols.length →
      diff_rows bs_model spot_range purchase_price_range option_type vols i = none
  | [], i, h1, h2 => by
    simp only [List.length_nil, Nat.add_zero] at h2
    omega
  | vol :: vs, i, h1, h2 => by
    rcases Nat.lt_or_ge i purchase_price_range.length with hi | hi
    · have hp : purchase_price_range[i]? = some (purchase_price_range.getD i 0) := by
        rw [List.getElem?_eq_getElem hi, List.getD_eq_getElem purchase_price_range 0 hi]
      have hrec := diff_rows_eq_none bs_model spot_range purchase_price_range option_type hsr
        vs (i + 1) (by omega) (by simp only [List.length_cons] at h2; omega)
      rw [diff_rows, diff_row_eq_of_some hp bs_model option_type vol spot_range, hrec]
    · have hp : purchase_price_range[i]? = none := List.getElem?_eq_none hi
      rw [diff_rows, diff_row_eq_none hp bs_model option_type vol hsr]

lemma diff_cell (bs_model : BlackScholes)
    (spot_range vol_range purchase_price_range : List ℝ) (option_type : String) (i j : ℕ)
    (hlen : vol_range.length ≤ purchase_price_range.length)
    (hi : i < vol_range.length) (hj : j < spot_range.length) :
    (plot_price_diff_colormap bs_model spot_range vol_range purchase_price_range
        option_type).bind (fun M => M[i]?.bind fun row => row[j]?) =
      some (cell_price bs_model bs_model.strike (spot_range.getD j 0) (vol_range.getD i 0)
        option_type - purchase_price_range.getD i 0) := by
  obtain ⟨M, hM, hMl, hMr, hMg⟩ :=
    diff_rows_eq_some bs_model spot_range purchase_price_range option_type vol_range 0
      (by omega)
  have := hMg i hi
  rw [Nat.zero_add] at this
  rw [plot_price_diff_colormap, hM, Option.some_bind, this, Option.some_bind,
    List.getElem?_map, List.getElem?_eq_getElem hj,
    List.getD_eq_getElem spot_range 0 hj]
  rfl

/-! ## Claims -/

/-- C1: for every valid input (`current_price > 0`, `strike > 0`,
`time_to_maturity > 0`, `volatility > 0`, any interest rate), the call and
put prices returned by `calculate_prices` satisfy put-call parity:
`call_price − put_price = S − K·exp(−r·T)`. -/
theorem claim_C1_put_call_parity (m : BlackScholes)
    (hS : 0 < m.current_price) (hK : 0 < m.strike)
    (hT : 0 < m.time_to_maturity) (hv : 0 < m.volatility) :
    m.calculate_prices.call_price - m.calculate_prices.put_price =
      m.current_price - m.strike * Real.exp (-(m.interest_rate * m.time_to_maturity)) :=
  put_call_parity m

theorem claim_C1_put_call_parity_witness :
    (0 : ℝ) < 1 ∧
    (BlackScholes.calculate_prices ⟨1, 1, 1, 1, 0⟩).call_price -
        (BlackScholes.calculate_prices ⟨1, 1, 1, 1, 0⟩).put_price =
      1 - 1 * Real.exp (-(0 * 1)) :=
  ⟨one_pos, claim_C1_put_call_parity ⟨1, 1, 1, 1, 0⟩ one_pos one_pos one_pos one_pos⟩

/-- C2, counterexample: at `S = 2, K = 1, T = 1, σ = 1, r = 0` the
`call_gamma` computed by `calculate_prices` is NOT `φ(d1) / (S·σ·√T)`
(the code divides by the strike, line 82, not by the current price). -/
theorem claim_C2_gamma_counterexample :
    ¬ ((BlackScholes.calculate_prices ⟨1, 1, 2, 1, 0⟩).call_gamma =
        normPdf (BlackScholes.d1 ⟨1, 1, 2, 1, 0⟩) / ((2 : ℝ) * 1 * Real.sqrt 1)) := by
  intro h
  rw [calculate_prices_call_gamma] at h
  have hpos := normPdf_pos (BlackScholes.d1 ⟨1, 1, 2, 1, 0⟩)
  simp [Real.sqrt_one] at h
  linarith

/-- C2, amended: for every valid input, the `call_gamma` computed by
`calculate_prices` equals `φ(d1) / (K·σ·√T)` — the denominator uses the
STRIKE, not the current price — and `put_gamma` equals `call_gamma`. -/
theorem claim_C2_gamma_amended (m : BlackScholes)
    (hS : 0 < m.current_price) (hK : 0 < m.strike)
    (hT : 0 < m.time_to_maturity) (hv : 0 < m.volatility) :
    m.calculate_prices.call_gamma =
      normPdf m.d1 / (m.strike * m.volatility * Real.sqrt m.time_to_maturity) ∧
    m.calculate_prices.put_gamma = m.calculate_prices.call_gamma :=
  ⟨rfl, rfl⟩

theorem claim_C2_gamma_amended_witness :
    (0 : ℝ) < 1 ∧
    ((BlackScholes.calculate_prices ⟨1, 1, 1, 1, 0⟩).call_gamma =
      normPdf (BlackScholes.d1 ⟨1, 1, 1, 1, 0⟩) / ((1 : ℝ) * 1 * Real.sqrt 1) ∧
    (BlackScholes.calculate_prices ⟨1, 1, 1, 1, 0⟩).put_gamma =
      (BlackScholes.calculate_prices ⟨1, 1, 1, 1, 0⟩).call_gamma) :=
  ⟨one_pos, claim_C2_gamma_amended ⟨1, 1, 1, 1, 0⟩ one_pos one_pos one_pos one_pos⟩

/-- C3, counterexample: at `S = K = 1, T = 1, σ = 1, r = −1/2` (a valid
input: the rate may be negative) `d1 = 0`, and the `put_delta` computed by
`calculate_prices` is `1 − Φ(0) = 1/2`, which is neither `Φ(d1) − 1 = −1/2`
nor `≤ 0`: line 81 computes `1 − Φ(d1)`, the negation of the claimed
`Φ(d1) − 1`. -/
theorem claim_C3_put_delta_counterexample :
    ¬ ((BlackScholes.calculate_prices ⟨1, 1, 1, 1, -(1/2)⟩).put_delta =
        normCdf (BlackScholes.d1 ⟨1, 1, 1, 1, -(1/2)⟩) - 1 ∧
      (BlackScholes.calculate_prices ⟨1, 1, 1, 1, -(1/2)⟩).put_delta ≤ 0) := by
  have hd1 : BlackScholes.d1 ⟨1, 1, 1, 1, -(1/2)⟩ = 0 := by
    unfold BlackScholes.d1
    norm_num
  have hpd : (BlackScholes.calculate_prices ⟨1, 1, 1, 1, -(1/2)⟩).put_delta = 1 / 2 := by
    rw [calculate_prices_put_delta, hd1, normCdf_zero]
    norm_num
  rintro ⟨h1, h2⟩
  rw [hpd] at h2
  norm_num at h2

/-- C3, amended: for every valid input, the `put_delta` computed by
`calculate_prices` equals `1 − Φ(d1)` (and is therefore always ≥ 0): the
code uses the negation of the textbook sign convention. -/
theorem claim_C3_put_delta_amended (m : BlackScholes)
    (hS : 0 < m.current_price) (hK : 0 < m.strike)
    (hT : 0 < m.time_to_maturity) (hv : 0 < m.volatility) :
    m.calculate_prices.put_delta = 1 - normCdf m.d1 ∧
    0 ≤ m.calculate_prices.put_delta := by
  refine ⟨rfl, ?_⟩
  rw [calculate_prices_put_delta]
  linarith [normCdf_le_one m.d1]

theorem claim_C3_put_delta_amended_witness :
    (0 : ℝ) < 1 ∧
    ((BlackScholes.calculate_prices ⟨1, 1, 1, 1, 0⟩).put_delta =
      1 - normCdf (BlackScholes.d1 ⟨1, 1, 1, 1, 0⟩) ∧
    0 ≤ (BlackScholes.calculate_prices ⟨1, 1, 1, 1, 0⟩).put_delta) :=
  ⟨one_pos, claim_C3_put_delta_amended ⟨1, 1, 1, 1, 0⟩ one_pos one_pos one_pos one_pos⟩

/-- C4: every cell `[i][j]` of the matrix produced by `plot_heatmap` equals
the price computed by `calculate_prices` on parameters equal to the base
model except `current_price = spot_range[j]`, `volatility = vol_range[i]`
and `strike` = the supplied strike, selecting the call or the put price
according to the option type. -/
theorem claim_C4_heatmap_cells (bs_model : BlackScholes)
    (spot_range vol_range : List ℝ) (strike : ℝ) (option_type : String) (i j : ℕ)
    (hi : i < vol_range.length) (hj : j < spot_range.length) :
    (plot_heatmap bs_model spot_range vol_range strike option_type)[i]?.bind
        (fun row => row[j]?) =
      some (if option_type = "call"
        then (BlackScholes.calculate_prices
          { time_to_maturity := bs_model.time_to_maturity
            strike := strike
            current_price := spot_range.getD j 0
            volatility := vol_range.getD i 0
            interest_rate := bs_model.interest_rate }).call_price
        else (BlackScholes.calculate_prices
          { time_to_maturity := bs_model.time_to_maturity
            strike := strike
            current_price := spot_range.getD j 0
            volatility := vol_range.getD i 0
            interest_rate := bs_model.interest_rate }).put_price) := by
  rw [plot_heatmap_cell bs_model spot_range vol_range strike option_type i j hi hj]
  rfl

theorem claim_C4_heatmap_cells_witness :
    0 < [(3 : ℝ)].length ∧ 0 < [(2 : ℝ)].length ∧
    (plot_heatmap ⟨1, 5, 1, 1, 0⟩ [2] [3] 7 ("call"))[0]?.bind (fun row => row[0]?) =
      some (if ("call" : String) = "call"
        then (BlackScholes.calculate_prices ⟨1, 7, 2, 3, 0⟩).call_price
        else (BlackScholes.calculate_prices ⟨1, 7, 2, 3, 0⟩).put_price) :=
  ⟨Nat.one_pos, Nat.one_pos,
    claim_C4_heatmap_cells ⟨1, 5, 1, 1, 0⟩ [2] [3] 7 ("call") 0 0 Nat.one_pos Nat.one_pos⟩

/-- C5: when the reference range has the same length as the volatility
range, every cell `[i][j]` of the matrix produced by
`plot_price_diff_colormap` equals the price computed for the
`(vol_range[i], spot_range[j])` pair (with the remaining parameters,
including the strike, taken from the base model) minus
`purchase_price_range[i]`.  The 1×1 instance of this statement is the
spec's "difference sweep == sweep − p" property. -/
theorem claim_C5_diff_cells (bs_model : BlackScholes)
    (spot_range vol_range purchase_price_range : List ℝ) (option_type : String) (i j : ℕ)
    (hlen : purchase_price_range.length = vol_range.length)
    (hi : i < vol_range.length) (hj : j < spot_range.length) :
    (plot_price_diff_colormap bs_model spot_range vol_range purchase_price_range
        option_type).bind (fun M => M[i]?.bind fun row => row[j]?) =
      some ((if option_type = "call"
        then (BlackScholes.calculate_prices
          { time_to_maturity := bs_model.time_to_maturity
            strike := bs_model.strike
            current_price := spot_range.getD j 0
            volatility := vol_range.getD i 0
            interest_rate := bs_model.interest_rate }).call_price
        else (BlackScholes.calculate_prices
          { time_to_maturity := bs_model.time_to_maturity
            strike := bs_model.strike
            current_price := spot_range.getD j 0
            volatility := vol_range.getD i 0
            interest_rate := bs_model.interest_rate }).put_price) -
        purchase_price_range.getD i 0) := by
  rw [diff_cell bs_model spot_range vol_range purchase_price_range option_type i j
    hlen.ge hi hj]
  rfl

theorem claim_C5_diff_cells_witness :
    [(5 : ℝ)].length = [(3 : ℝ)].length ∧
    (plot_price_diff_colormap ⟨1, 1, 1, 1, 0⟩ [2] [3] [5] ("put")).bind
        (fun M => M[0]?.bind fun row => row[0]?) =
      some ((if ("put" : String) = "call"
        then (BlackScholes.calculate_prices ⟨1, 1, 2, 3, 0⟩).call_price
        else (BlackScholes.calculate_prices ⟨1, 1, 2, 3, 0⟩).put_price) - 5) :=
  ⟨rfl, claim_C5_diff_cells ⟨1, 1, 1, 1, 0⟩ [2] [3] [5] ("put") 0 0 rfl
    Nat.one_pos Nat.one_pos⟩

/-- C6: for a volatility range of length `m` and a spot range of length
`n`, `plot_heatmap` always produces `m` rows each of length `n`, and (under
its length precondition) so does `plot_price_diff_colormap`; rows are
indexed by volatility, columns by spot. -/
theorem claim_C6_grid_shape (bs_model : BlackScholes)
    (spot_range vol_range purchase_price_range : List ℝ) (strike : ℝ)
    (option_type : String)
    (hlen : purchase_price_range.length = vol_range.length) :
    (plot_heatmap bs_model spot_range vol_range strike option_type).length =
      vol_range.length ∧
    (∀ row ∈ plot_heatmap bs_model spot_range vol_range strike option_type,
      row.length = spot_range.length) ∧
    ∃ M, plot_price_diff_colormap bs_model spot_range vol_range purchase_price_range
        option_type = some M ∧
      M.length = vol_range.length ∧ ∀ row ∈ M, row.length = spot_range.length := by
  refine ⟨by simp [plot_heatmap], ?_, ?_⟩
  · intro row hrow
    obtain ⟨vol, _, rfl⟩ := List.mem_map.1 hrow
    simp
  · obtain ⟨M, hM, hMl, hMr, _⟩ :=
      diff_rows_eq_some bs_model spot_range purchase_price_range option_type vol_range 0
        (by omega)
    exact ⟨M, hM, hMl, hMr⟩

theorem claim_C6_grid_shape_witness :
    [(5 : ℝ)].length = [(3 : ℝ)].length ∧
    ((plot_heatmap ⟨1, 1, 1, 1, 0⟩ [2, 4] [3] 9 ("call")).length = [(3 : ℝ)].length ∧
    (∀ row ∈ plot_heatmap ⟨1, 1, 1, 1, 0⟩ [2, 4] [3] 9 ("call"),
      row.length = [(2 : ℝ), 4].length) ∧
    ∃ M, plot_price_diff_colormap ⟨1, 1, 1, 1, 0⟩ [2, 4] [3] [5] ("call") = some M ∧
      M.length = [(3 : ℝ)].length ∧ ∀ row ∈ M, row.length = [(2 : ℝ), 4].length) :=
  ⟨rfl, claim_C6_grid_shape ⟨1, 1, 1, 1, 0⟩ [2, 4] [3] [5] 9 ("call") rfl⟩

/-- C7, counterexample: with a reference range of length 2 and a volatility
range of length 1 — lengths differing — `plot_price_diff_colormap` does NOT
fail: it returns a matrix.  The lookup `purchase_price_range[i]` can only
go out of range when the reference sequence is too short, never when it is
too long. -/
theorem claim_C7_counterexample :
    [(5 : ℝ), 6].length ≠ [(2 : ℝ)].length ∧
    ∃ M, plot_price_diff_colormap ⟨1, 1, 1, 1, 0⟩ [7] [2] [5, 6] ("call") = some M := by
  refine ⟨by simp, ?_⟩
  obtain ⟨M, hM, _⟩ :=
    diff_rows_eq_some ⟨1, 1, 1, 1, 0⟩ [7] [5, 6] ("call") [2] 0 (by simp)
  exact ⟨M, hM⟩

/-- C7, amended: `plot_price_diff_colormap` fails with an
IndexOutOfRange-class error (modelled `none`) when the reference range is
SHORTER than the volatility range and the spot range is nonempty; whenever
the reference range is at least as long as the volatility range it returns
a matrix. -/
theorem claim_C7_amended (bs_model : BlackScholes)
    (spot_range vol_range purchase_price_range : List ℝ) (option_type : String) :
    (purchase_price_range.length < vol_range.length → spot_range ≠ [] →
      plot_price_diff_colormap bs_model spot_range vol_range purchase_price_range
        option_type = none) ∧
    (vol_range.length ≤ purchase_price_range.length →
      ∃ M, plot_price_diff_colormap bs_model spot_range vol_range purchase_price_range
        option_type = some M) := by
  constructor
  · intro h1 h2
    exact diff_rows_eq_none bs_model spot_range purchase_price_range option_type h2
      vol_range 0 (by omega) (by omega)
  · intro h
    obtain ⟨M, hM, _⟩ :=
      diff_rows_eq_some bs_model spot_range purchase_price_range option_type vol_range 0
        (by omega)
    exact ⟨M, hM⟩

theorem claim_C7_amended_witness :
    ([] : List ℝ).length < [(2 : ℝ)].length ∧ [(7 : ℝ)] ≠ [] ∧
    plot_price_diff_colormap ⟨1, 1, 1, 1, 0⟩ [7] [2] [] ("call") = none := by
  refine ⟨Nat.one_pos, by simp, ?_⟩
  exact (claim_C7_amended ⟨1, 1, 1, 1, 0⟩ [7] [2] [] ("call")).1 Nat.one_pos (by simp)

/-- C8, counterexample: at the invalid input `σ = −1 ≤ 0` (with
`S = K = T = 1, r = 0`) `calculate_prices` raises nothing: the computation
proceeds and returns the closed-form values, here
`call_delta = Φ(−1/2)`.  No `InvalidParameter` check exists anywhere in
`calculate_prices` (lines 64-85). -/
theorem claim_C8_counterexample :
    (-1 : ℝ) ≤ 0 ∧
    (BlackScholes.calculate_prices ⟨1, 1, 1, -1, 0⟩).call_delta = normCdf (-(1 / 2)) := by
  refine ⟨by norm_num, ?_⟩
  rw [calculate_prices_call_delta]
  congr 1
  unfold BlackScholes.d1
  norm_num

/-- C8, amended: the pricing operation performs NO input validation: for
every input, including any with `strike ≤ 0`, `current_price ≤ 0`,
`volatility ≤ 0` or `time_to_maturity ≤ 0`, `calculate_prices` proceeds and
returns the closed-form expressions (rejecting invalid inputs is the
caller's responsibility). -/
theorem claim_C8_no_validation (m : BlackScholes)
    (hinv : m.strike ≤ 0 ∨ m.current_price ≤ 0 ∨ m.volatility ≤ 0 ∨
      m.time_to_maturity ≤ 0) :
    m.calculate_prices.call_delta = normCdf m.d1 ∧
    m.calculate_prices.put_delta = 1 - normCdf m.d1 ∧
    m.calculate_prices.put_gamma = m.calculate_prices.call_gamma ∧
    m.calculate_prices.call_price - m.calculate_prices.put_price =
      m.current_price - m.strike * Real.exp (-(m.interest_rate * m.time_to_maturity)) :=
  ⟨rfl, rfl, rfl, put_call_parity m⟩

theorem claim_C8_no_validation_witness :
    ((1 : ℝ) ≤ 0 ∨ (1 : ℝ) ≤ 0 ∨ (-1 : ℝ) ≤ 0 ∨ (1 : ℝ) ≤ 0) ∧
    ((BlackScholes.calculate_prices ⟨1, 1, 1, -1, 0⟩).call_delta =
      normCdf (BlackScholes.d1 ⟨1, 1, 1, -1, 0⟩) ∧
    (BlackScholes.calculate_prices ⟨1, 1, 1, -1, 0⟩).put_delta =
      1 - normCdf (BlackScholes.d1 ⟨1, 1, 1, -1, 0⟩) ∧
    (BlackScholes.calculate_prices ⟨1, 1, 1, -1, 0⟩).put_gamma =
      (BlackScholes.calculate_prices ⟨1, 1, 1, -1, 0⟩).call_gamma ∧
    (BlackScholes.calculate_prices ⟨1, 1, 1, -1, 0⟩).call_price -
        (BlackScholes.calculate_prices ⟨1, 1, 1, -1, 0⟩).put_price =
      1 - 1 * Real.exp (-(0 * 1))) :=
  ⟨Or.inr (Or.inr (Or.inl (by norm_num))),
    claim_C8_no_validation ⟨1, 1, 1, -1, 0⟩ (Or.inr (Or.inr (Or.inl (by norm_num))))⟩

/-- C10: `plot_price_diff_colormap` prices every cell with the BASE model's
strike (line 120; it accepts no strike argument), while `plot_heatmap`
prices every cell with its separately supplied strike argument (line 95);
consequently a difference-sweep cell equals the corresponding heatmap cell
minus the row reference when the strike supplied to `plot_heatmap` equals
the base model's strike. -/
theorem claim_C10_diff_uses_base_strike (bs_model : BlackScholes)
    (spot_range vol_range purchase_price_range : List ℝ) (strike : ℝ)
    (option_type : String) (i j : ℕ)
    (hstrike : strike = bs_model.strike)
    (hlen : purchase_price_range.length = vol_range.length)
    (hi : i < vol_range.length) (hj : j < spot_range.length) :
    (plot_price_diff_colormap bs_model spot_range vol_range purchase_price_range
        option_type).bind (fun M => M[i]?.bind fun row => row[j]?) =
      some ((((plot_heatmap bs_model spot_range vol_range strike option_type).getD i
          []).getD j 0) - purchase_price_range.getD i 0) := by
  subst hstrike
  rw [diff_cell bs_model spot_range vol_range purchase_price_range option_type i j
      hlen.ge hi hj,
    plot_heatmap_cell_getD bs_model spot_range vol_range bs_model.strike option_type i j
      hi hj]

theorem claim_C10_diff_uses_base_strike_witness :
    (4 : ℝ) = 4 ∧ [(5 : ℝ)].length = [(3 : ℝ)].length ∧
    (plot_price_diff_colormap ⟨1, 4, 1, 1, 0⟩ [2] [3] [5] ("put")).bind
        (fun M => M[0]?.bind fun row => row[0]?) =
      some ((((plot_heatmap ⟨1, 4, 1, 1, 0⟩ [2] [3] 4 ("put")).getD 0 []).getD 0 0) - 5) :=
  ⟨rfl, rfl, claim_C10_diff_uses_base_strike ⟨1, 4, 1, 1, 0⟩ [2] [3] [5] 4 ("put") 0 0
    rfl rfl Nat.one_pos Nat.one_pos⟩

/-! ## Derivative analysis for the monotonicity claim -/

/-- The classical cancellation `S·φ(d1) = K·e^(−rT)·φ(d2)`. -/
lemma key_identity (S K T v r : ℝ) (hS : 0 < S) (hK : 0 < K) (hT : 0 < T) (hv : 0 < v) :
    S * normPdf ((Real.log (S / K) + (r + 0.5 * v ^ 2) * T) / (v * Real.sqrt T)) =
      K * Real.exp (-(r * T)) *
        normPdf ((Real.log (S / K) + (r + 0.5 * v ^ 2) * T) / (v * Real.sqrt T) -
          v * Real.sqrt T) := by
  have hs0 : 0 < Real.sqrt T := Real.sqrt_pos.2 hT
  set s := Real.sqrt T with hsdef
  have hs2 : s ^ 2 = T := Real.sq_sqrt hT.le
  set A := Real.log (S / K) + (r + 0.5 * v ^ 2) * T with hA
  set d := A / (v * s) with hd
  have hvs : v * s ≠ 0 := by positivity
  have hd1 : d * (v * s) = A := div_mul_cancel₀ A hvs
  have hlog : Real.log (S / K) = Real.log S - Real.log K := Real.log_div hS.ne' hK.ne'
  unfold normPdf
  rw [← mul_div_assoc, ← mul_div_assoc]
  have hnum : S * Real.exp (-(d ^ 2) / 2) =
      K * Real.exp (-(r * T)) * Real.exp (-((d - v * s) ^ 2) / 2) := by
    nth_rewrite 1 [← Real.exp_log hS]
    nth_rewrite 1 [← Real.exp_log hK]
    rw [← Real.exp_add, ← Real.exp_add, ← Real.exp_add]
    congr 1
    rw [hA] at hd1
    linear_combination -hd1 - hlog + (v ^ 2 / 2) * hs2
  rw [hnum]

/-- Derivative of `d1` in the spot variable. -/
lemma hasDerivAt_d1_in_S (K T v r : ℝ) (hK : 0 < K) (S : ℝ) (hS : 0 < S) :
    HasDerivAt (fun u => (Real.log (u / K) + (r + 0.5 * v ^ 2) * T) / (v * Real.sqrt T))
      ((1 / S) / (v * Real.sqrt T)) S := by
  have h1 : HasDerivAt (fun u : ℝ => u / K) (1 / K) S := by
    simpa using (hasDerivAt_id S).div_const K
  have h2 : HasDerivAt (fun u : ℝ => Real.log (u / K)) (1 / S) S := by
    have hne : S / K ≠ 0 := div_ne_zero hS.ne' hK.ne'
    have h := h1.log hne
    convert h using 1
    field_simp
  exact (h2.add_const ((r + 0.5 * v ^ 2) * T)).div_const (v * Real.sqrt T)

/-- Derivative of the call price in the spot variable: the call delta `Φ(d1)`. -/
lemma hasDerivAt_call_in_S (K T v r : ℝ) (hK : 0 < K) (hT : 0 < T) (hv : 0 < v)
    (S : ℝ) (hS : 0 < S) :
    HasDerivAt (fun u => (BlackScholes.calculate_prices ⟨T, K, u, v, r⟩).call_price)
      (normCdf ((Real.log (S / K) + (r + 0.5 * v ^ 2) * T) / (v * Real.sqrt T))) S := by
  have hs0 : 0 < Real.sqrt T := Real.sqrt_pos.2 hT
  set s := Real.sqrt T with hsdef
  set dfun := fun u : ℝ => (Real.log (u / K) + (r + 0.5 * v ^ 2) * T) / (v * s) with hdfun
  have hd : HasDerivAt dfun ((1 / S) / (v * s)) S := hasDerivAt_d1_in_S K T v r hK S hS
  have hf1 : HasDerivAt (fun u => normCdf (dfun u))
      (normPdf (dfun S) * ((1 / S) / (v * s))) S :=
    (hasDerivAt_normCdf (dfun S)).comp S hd
  have ht1 : HasDerivAt (fun u => u * normCdf (dfun u))
      (1 * normCdf (dfun S) + S * (normPdf (dfun S) * ((1 / S) / (v * s)))) S :=
    (hasDerivAt_id S).mul hf1
  have hf2 : HasDerivAt (fun u => normCdf (dfun u - v * s))
      (normPdf (dfun S - v * s) * ((1 / S) / (v * s))) S :=
    (hasDerivAt_normCdf (dfun S - v * s)).comp S (hd.sub_const (v * s))
  have ht2 : HasDerivAt (fun u => K * Real.exp (-(r * T)) * normCdf (dfun u - v * s))
      (K * Real.exp (-(r * T)) * (normPdf (dfun S - v * s) * ((1 / S) / (v * s)))) S :=
    hf2.const_mul (K * Real.exp (-(r * T)))
  have hcall := ht1.sub ht2
  have hkey := key_identity S K T v r hS hK hT hv
  have hval : 1 * normCdf (dfun S) + S * (normPdf (dfun S) * ((1 / S) / (v * s))) -
      K * Real.exp (-(r * T)) * (normPdf (dfun S - v * s) * ((1 / S) / (v * s))) =
      normCdf (dfun S) := by
    simp only [hdfun]
    linear_combination ((1 / S) / (v * s)) * hkey
  rw [hval] at hcall
  exact hcall

/-- Derivative of the put price in the spot variable: `Φ(d1) − 1`. -/
lemma hasDerivAt_put_in_S (K T v r : ℝ) (hK : 0 < K) (hT : 0 < T) (hv : 0 < v)
    (S : ℝ) (hS : 0 < S) :
    HasDerivAt (fun u => (BlackScholes.calculate_prices ⟨T, K, u, v, r⟩).put_price)
      (normCdf ((Real.log (S / K) + (r + 0.5 * v ^ 2) * T) / (v * Real.sqrt T)) - 1) S := by
  have hcall := hasDerivAt_call_in_S K T v r hK hT hv S hS
  have h2 : HasDerivAt (fun u =>
      (BlackScholes.calculate_prices ⟨T, K, u, v, r⟩).call_price - u +
        K * Real.exp (-(r * T)))
      (normCdf ((Real.log (S / K) + (r + 0.5 * v ^ 2) * T) / (v * Real.sqrt T)) - 1) S := by
    simpa using (hcall.sub (hasDerivAt_id S)).add_const (K * Real.exp (-(r * T)))
  refine h2.congr_of_eventuallyEq (Filter.Eventually.of_forall fun u => ?_)
  have hpar := put_call_parity ⟨T, K, u, v, r⟩
  simp only [BlackScholes.calculate_prices] at hpar ⊢
  linarith [hpar]

/-- Derivative of `d1` in the volatility variable. -/
lemma hasDerivAt_d1_in_vol (S K T r : ℝ) (hT : 0 < T) (v : ℝ) (hv : 0 < v) :
    HasDerivAt (fun w => (Real.log (S / K) + (r + 0.5 * w ^ 2) * T) / (w * Real.sqrt T))
      ((0.5 * (2 * v) * T * (v * Real.sqrt T) -
          (Real.log (S / K) + (r + 0.5 * v ^ 2) * T) * Real.sqrt T) /
        (v * Real.sqrt T) ^ 2) v := by
  have hs0 : 0 < Real.sqrt T := Real.sqrt_pos.2 hT
  have hp : HasDerivAt (fun w : ℝ => w ^ 2) (2 * v) v := by
    simpa using hasDerivAt_pow 2 v
  have hnum : HasDerivAt (fun w : ℝ => Real.log (S / K) + (r + 0.5 * w ^ 2) * T)
      (0.5 * (2 * v) * T) v := by
    exact (((hp.const_mul 0.5).const_add r).mul_const T).const_add (Real.log (S / K))
  have hden : HasDerivAt (fun w : ℝ => w * Real.sqrt T) (Real.sqrt T) v := by
    simpa using (hasDerivAt_id v).mul_const (Real.sqrt T)
  have hne : v * Real.sqrt T ≠ 0 := by positivity
  have h := hnum.div hden hne
  convert h using 1

/-- Derivative of the call price in the volatility variable: the vega
`S·φ(d1)·√T`. -/
lemma hasDerivAt_call_in_vol (S K T r : ℝ) (hS : 0 < S) (hK : 0 < K) (hT : 0 < T)
    (v : ℝ) (hv : 0 < v) :
    HasDerivAt (fun w => (BlackScholes.calculate_prices ⟨T, K, S, w, r⟩).call_price)
      (S * normPdf ((Real.log (S / K) + (r + 0.5 * v ^ 2) * T) / (v * Real.sqrt T)) *
        Real.sqrt T) v := by
  have hs0 : 0 < Real.sqrt T := Real.sqrt_pos.2 hT
  set s := Real.sqrt T with hsdef
  set g' := (0.5 * (2 * v) * T * (v * s) -
      (Real.log (S / K) + (r + 0.5 * v ^ 2) * T) * s) / (v * s) ^ 2 with hg'
  set gfun := fun w : ℝ => (Real.log (S / K) + (r + 0.5 * w ^ 2) * T) / (w * s) with hgfun
  have hg : HasDerivAt gfun g' v := hasDerivAt_d1_in_vol S K T r hT v hv
  have hf1 : HasDerivAt (fun w => normCdf (gfun w)) (normPdf (gfun v) * g') v :=
    (hasDerivAt_normCdf (gfun v)).comp v hg
  have ht1 : HasDerivAt (fun w => S * normCdf (gfun w)) (S * (normPdf (gfun v) * g')) v :=
    hf1.const_mul S
  have hd2 : HasDerivAt (fun w => gfun w - w * s) (g' - s) v := by
    have hws : HasDerivAt (fun w : ℝ => w * s) s v := by
      simpa using (hasDerivAt_id v).mul_const s
    exact hg.sub hws
  have hf2 : HasDerivAt (fun w => normCdf (gfun w - w * s))
      (normPdf (gfun v - v * s) * (g' - s)) v :=
    (hasDerivAt_normCdf (gfun v - v * s)).comp v hd2
  have ht2 : HasDerivAt (fun w => K * Real.exp (-(r * T)) * normCdf (gfun w - w * s))
      (K * Real.exp (-(r * T)) * (normPdf (gfun v - v * s) * (g' - s))) v :=
    hf2.const_mul (K * Real.exp (-(r * T)))
  have hcall := ht1.sub ht2
  have hkey := key_identity S K T v r hS hK hT hv
  have hval : S * (normPdf (gfun v) * g') -
      K * Real.exp (-(r * T)) * (normPdf (gfun v - v * s) * (g' - s)) =
      S * normPdf (gfun v) * s := by
    simp only [hgfun]
    linear_combination (g' - s) * hkey
  rw [hval] at hcall
  exact hcall

/-- Derivative of the put price in the volatility variable: the same vega,
via put-call parity. -/
lemma hasDerivAt_put_in_vol (S K T r : ℝ) (hS : 0 < S) (hK : 0 < K) (hT : 0 < T)
    (v : ℝ) (hv : 0 < v) :
    HasDerivAt (fun w => (BlackScholes.calculate_prices ⟨T, K, S, w, r⟩).put_price)
      (S * normPdf ((Real.log (S / K) + (r + 0.5 * v ^ 2) * T) / (v * Real.sqrt T)) *
        Real.sqrt T) v := by
  have hcall := hasDerivAt_call_in_vol S K T r hS hK hT v hv
  have h2 : HasDerivAt (fun w =>
      (BlackScholes.calculate_prices ⟨T, K, S, w, r⟩).call_price - S +
        K * Real.exp (-(r * T)))
      (S * normPdf ((Real.log (S / K) + (r + 0.5 * v ^ 2) * T) / (v * Real.sqrt T)) *
        Real.sqrt T) v :=
    (hcall.sub_const S).add_const (K * Real.exp (-(r * T)))
  refine h2.congr_of_eventuallyEq (Filter.Eventually.of_forall fun w => ?_)
  have hpar := put_call_parity ⟨T, K, S, w, r⟩
  simp only [BlackScholes.calculate_prices] at hpar ⊢
  linarith [hpar]

lemma call_monotoneOn_S (K T v r : ℝ) (hK : 0 < K) (hT : 0 < T) (hv : 0 < v) :
    MonotoneOn (fun u => (BlackScholes.calculate_prices ⟨T, K, u, v, r⟩).call_price)
      (Set.Ioi (0 : ℝ)) := by
  apply monotoneOn_of_deriv_nonneg (convex_Ioi 0)
  · intro x hx
    exact (hasDerivAt_call_in_S K T v r hK hT hv x hx).continuousAt.continuousWithinAt
  · rw [interior_Ioi]
    intro x hx
    exact (hasDerivAt_call_in_S K T v r hK hT hv x hx).differentiableAt.differentiableWithinAt
  · rw [interior_Ioi]
    intro x hx
    rw [(hasDerivAt_call_in_S K T v r hK hT hv x hx).deriv]
    exact normCdf_nonneg _

lemma put_antitoneOn_S (K T v r : ℝ) (hK : 0 < K) (hT : 0 < T) (hv : 0 < v) :
    AntitoneOn (fun u => (BlackScholes.calculate_prices ⟨T, K, u, v, r⟩).put_price)
      (Set.Ioi (0 : ℝ)) := by
  apply antitoneOn_of_deriv_nonpos (convex_Ioi 0)
  · intro x hx
    exact (hasDerivAt_put_in_S K T v r hK hT hv x hx).continuousAt.continuousWithinAt
  · rw [interior_Ioi]
    intro x hx
    exact (hasDerivAt_put_in_S K T v r hK hT hv x hx).differentiableAt.differentiableWithinAt
  · rw [interior_Ioi]
    intro x hx
    rw [(hasDerivAt_put_in_S K T v r hK hT hv x hx).deriv]
    linarith [normCdf_le_one ((Real.log (x / K) + (r + 0.5 * v ^ 2) * T) /
      (v * Real.sqrt T))]

lemma call_monotoneOn_vol (S K T r : ℝ) (hS : 0 < S) (hK : 0 < K) (hT : 0 < T) :
    MonotoneOn (fun w => (BlackScholes.calculate_prices ⟨T, K, S, w, r⟩).call_price)
      (Set.Ioi (0 : ℝ)) := by
  apply monotoneOn_of_deriv_nonneg (convex_Ioi 0)
  · intro x hx
    exact (hasDerivAt_call_in_vol S K T r hS hK hT x hx).continuousAt.continuousWithinAt
  · rw [interior_Ioi]
    intro x hx
    exact (hasDerivAt_call_in_vol S K T r hS hK hT x hx).differentiableAt.differentiableWithinAt
  · rw [interior_Ioi]
    intro x hx
    rw [(hasDerivAt_call_in_vol S K T r hS hK hT x hx).deriv]
    exact mul_nonneg (mul_nonneg hS.le (normPdf_nonneg _)) (Real.sqrt_nonneg T)

lemma put_monotoneOn_vol (S K T r : ℝ) (hS : 0 < S) (hK : 0 < K) (hT : 0 < T) :
    MonotoneOn (fun w => (BlackScholes.calculate_prices ⟨T, K, S, w, r⟩).put_price)
      (Set.Ioi (0 : ℝ)) := by
  apply monotoneOn_of_deriv_nonneg (convex_Ioi 0)
  · intro x hx
    exact (hasDerivAt_put_in_vol S K T r hS hK hT x hx).continuousAt.continuousWithinAt
  · rw [interior_Ioi]
    intro x hx
    exact (hasDerivAt_put_in_vol S K T r hS hK hT x hx).differentiableAt.differentiableWithinAt
  · rw [interior_Ioi]
    intro x hx
    rw [(hasDerivAt_put_in_vol S K T r hS hK hT x hx).deriv]
    exact mul_nonneg (mul_nonneg hS.le (normPdf_nonneg _)) (Real.sqrt_nonneg T)

/-- C9: with strike, maturity and rate fixed and valid, `call_price` is
non-decreasing and `put_price` non-increasing in the spot `S` (over pairs of
valid inputs differing only in `S`), and both `call_price` and `put_price`
are non-decreasing in the volatility `σ` (over pairs of valid inputs
differing only in `σ`). -/
theorem claim_C9_monotonicity (K T r : ℝ) (hK : 0 < K) (hT : 0 < T) :
    (∀ v S Sp, 0 < v → 0 < S → S ≤ Sp →
      (BlackScholes.calculate_prices ⟨T, K, S, v, r⟩).call_price ≤
        (BlackScholes.calculate_prices ⟨T, K, Sp, v, r⟩).call_price) ∧
    (∀ v S Sp, 0 < v → 0 < S → S ≤ Sp →
      (BlackScholes.calculate_prices ⟨T, K, Sp, v, r⟩).put_price ≤
        (BlackScholes.calculate_prices ⟨T, K, S, v, r⟩).put_price) ∧
    (∀ S v vp, 0 < S → 0 < v → v ≤ vp →
      (BlackScholes.calculate_prices ⟨T, K, S, v, r⟩).call_price ≤
        (BlackScholes.calculate_prices ⟨T, K, S, vp, r⟩).call_price) ∧
    (∀ S v vp, 0 < S → 0 < v → v ≤ vp →
      (BlackScholes.calculate_prices ⟨T, K, S, v, r⟩).put_price ≤
        (BlackScholes.calculate_prices ⟨T, K, S, vp, r⟩).put_price) := by
  refine ⟨?_, ?_, ?_, ?_⟩
  · intro v S Sp hv hS hle
    exact call_monotoneOn_S K T v r hK hT hv hS (lt_of_lt_of_le hS hle) hle
  · intro v S Sp hv hS hle
    exact put_antitoneOn_S K T v r hK hT hv hS (lt_of_lt_of_le hS hle) hle
  · intro S v vp hS hv hle
    exact call_monotoneOn_vol S K T r hS hK hT hv (lt_of_lt_of_le hv hle) hle
  · intro S v vp hS hv hle
    exact put_monotoneOn_vol S K T r hS hK hT hv (lt_of_lt_of_le hv hle) hle

theorem claim_C9_monotonicity_witness :
    (0 : ℝ) < 1 ∧ (1 : ℝ) ≤ 2 ∧
    (BlackScholes.calculate_prices ⟨1, 1, 1, 1, 0⟩).call_price ≤
      (BlackScholes.calculate_prices ⟨1, 1, 2, 1, 0⟩).call_price ∧
    (BlackScholes.calculate_prices ⟨1, 1, 2, 1, 0⟩).put_price ≤
      (BlackScholes.calculate_prices ⟨1, 1, 1, 1, 0⟩).put_price ∧
    (BlackScholes.calculate_prices ⟨1, 1, 1, 1, 0⟩).call_price ≤
      (BlackScholes.calculate_prices ⟨1, 1, 1, 2, 0⟩).call_price ∧
    (BlackScholes.calculate_prices ⟨1, 1, 1, 1, 0⟩).put_price ≤
      (BlackScholes.calculate_prices ⟨1, 1, 1, 2, 0⟩).put_price :=
  ⟨one_pos, one_le_two,
    (claim_C9_monotonicity 1 1 0 one_pos one_pos).1 1 1 2 one_pos one_pos one_le_two,
    (claim_C9_monotonicity 1 1 0 one_pos one_pos).2.1 1 1 2 one_pos one_pos one_le_two,
    (claim_C9_monotonicity 1 1 0 one_pos one_pos).2.2.1 1 1 2 one_pos one_pos one_le_two,
    (claim_C9_monotonicity 1 1 0 one_pos one_pos).2.2.2 1 1 2 one_pos one_pos one_le_two⟩
